import Mathlib

/-!
Verification of the two renderer cores of the `cogs` repository.

The first part embeds the pixel-buffer renderer of
`phase3-nativewindow/app/src/main/cpp/native_renderer.cpp`; the second part
embeds the OpenGL renderer of `phase4-opengl/app/src/main/cpp/gl_renderer.cpp`.
C `float` arithmetic is embedded as exact rational arithmetic (the
real-number semantics of the C code), C `int` values as `ℤ`, and pixel
buffers as total functions from integer indices to 32-bit colour values
represented as `ℕ`.
-/

/-- Reading back a buffer after a left fold of constant-value writes:
an index read returns the written constant exactly when it was written. -/
theorem foldl_update_read {α β : Type} [DecidableEq α] (c : β) (L : List α)
    (buf : α → β) (j : α) :
    (L.foldl (fun b i => Function.update b i c) buf) j =
      if j ∈ L then c else buf j := by
  induction L generalizing buf with
  | nil => simp
  | cons a L ih =>
    simp only [List.foldl_cons, ih, Function.update_apply, List.mem_cons]
    by_cases hj : j ∈ L <;> by_cases hja : j = a <;> simp [hj, hja]

namespace NativeRenderer

/-- C truncation `static_cast<int>` on a rational: rounds toward zero. -/
def truncQ (q : ℚ) : ℤ := if 0 ≤ q then ⌊q⌋ else ⌈q⌉

/-- C `fmodf x y = x - y * trunc (x / y)` (rounds the quotient toward zero). -/
def fmodQ (x y : ℚ) : ℚ := x - y * (truncQ (x / y) : ℚ)

/-- The variable `float cycle = fmodf(g_time, 4.0f)` of `drawFrame`. -/
def cycleOf (t : ℚ) : ℚ := fmodQ t 4

/-- The variable `progress` of `drawFrame`: `cycle / 2` while moving right,
`1 - (cycle - 2) / 2` while moving left. -/
def progressOf (t : ℚ) : ℚ :=
  if cycleOf t < 2 then cycleOf t / 2 else 1 - (cycleOf t - 2) / 2

/-- The constant `float leftEdge = 100.0f` of `drawFrame`. -/
def leftEdge : ℚ := 100

/-- The variable `float rightEdge = width - 100.0f` of `drawFrame`. -/
def rightEdge (width : ℚ) : ℚ := width - 100

/-- The circle centre x coordinate
`cx = leftEdge + (progress * (rightEdge - leftEdge))` of `drawFrame`. -/
def cxOf (width t : ℚ) : ℚ :=
  leftEdge + progressOf t * (rightEdge width - leftEdge)

/-- The circle centre y coordinate `cy = height / 2.0f` of `drawFrame`. -/
def cyOf (height : ℚ) : ℚ := height / 2

/-- The constant `float radius = 80.0f` of `drawFrame`. -/
def radius : ℚ := 80

/-- The packed background colour of `drawFrame`: dark blue `(20, 20, 30)`,
in RGBA or ARGB byte order depending on the reported buffer format. -/
def bgColor (isRGBA : Bool) : ℕ :=
  if isRGBA then 20 ||| (20 <<< 8) ||| (30 <<< 16) ||| (255 <<< 24)
  else (255 <<< 24) ||| (20 <<< 16) ||| (20 <<< 8) ||| 30

/-- The packed circle colour of `drawFrame`: light blue `(100, 150, 255)`. -/
def circleColor (isRGBA : Bool) : ℕ :=
  if isRGBA then 100 ||| (150 <<< 8) ||| (255 <<< 16) ||| (255 <<< 24)
  else (255 <<< 24) ||| (100 <<< 16) ||| (150 <<< 8) ||| 255

/-- The index list of an inclusive C `for` loop from `a` to `b`. -/
def intRange (a b : ℤ) : List ℤ :=
  (List.range (b + 1 - a).toNat).map (fun (i : ℕ) => a + (i : ℤ))

/-- The indices written by the background-fill loop of `drawFrame`:
`pixels[y * stride + x]` for `0 ≤ y < height`, `0 ≤ x < width`, in loop
order. -/
def fillWrites (width height stride : ℤ) : List ℤ :=
  (intRange 0 (height - 1)).flatMap
    (fun y => (intRange 0 (width - 1)).map (fun x => y * stride + x))

/-- The background-fill step of `drawFrame` as a buffer transformer. -/
def fillBackground (c : ℕ) (width height stride : ℤ) (buf : ℤ → ℕ) : ℤ → ℕ :=
  (fillWrites width height stride).foldl (fun b i => Function.update b i c) buf

theorem mem_intRange {a b i : ℤ} : i ∈ intRange a b ↔ a ≤ i ∧ i ≤ b := by
  unfold intRange
  simp only [List.mem_map, List.mem_range]
  constructor
  · rintro ⟨k, hk, rfl⟩
    omega
  · rintro ⟨h1, h2⟩
    exact ⟨(i - a).toNat, by omega, by omega⟩

theorem intRange_nodup (a b : ℤ) : (intRange a b).Nodup := by
  unfold intRange
  apply List.Nodup.map
  · intro m n h
    have h' : a + (m : ℤ) = a + (n : ℤ) := h
    omega
  · exact List.nodup_range _

theorem intRange_length (a b : ℤ) : (intRange a b).length = (b + 1 - a).toNat := by
  unfold intRange
  rw [List.length_map, List.length_range]

theorem mem_fillWrites {width height stride i : ℤ} :
    i ∈ fillWrites width height stride ↔
      ∃ y, 0 ≤ y ∧ y < height ∧ ∃ x, 0 ≤ x ∧ x < width ∧ i = y * stride + x := by
  unfold fillWrites
  simp only [List.mem_flatMap, List.mem_map, mem_intRange]
  constructor
  · rintro ⟨y, ⟨hy0, hy1⟩, x, ⟨hx0, hx1⟩, rfl⟩
    exact ⟨y, hy0, by omega, x, hx0, by omega, rfl⟩
  · rintro ⟨y, hy0, hy1, x, hx0, hx1, rfl⟩
    exact ⟨y, ⟨hy0, by omega⟩, x, ⟨hx0, by omega⟩, rfl⟩

theorem fillWrites_length (width height stride : ℤ) :
    (fillWrites width height stride).length = height.toNat * width.toNat := by
  unfold fillWrites
  rw [List.length_flatMap]
  have h : (intRange 0 (height - 1)).map
      (List.length ∘ fun y => (intRange 0 (width - 1)).map (fun x => y * stride + x)) =
      (intRange 0 (height - 1)).map (fun _ => width.toNat) := by
    apply List.map_congr_left
    intro y _
    simp only [Function.comp_apply, List.length_map, intRange_length]
    omega
  rw [h, List.map_const', List.sum_replicate, smul_eq_mul, intRange_length]
  have he : height - 1 + 1 - 0 = height := by omega
  rw [he]

/-- Row-major index decomposition is unique when each column index is a
canonical remainder for the stride. -/
theorem index_decomp_unique {s x1 x2 y1 y2 : ℤ} (hs : 0 < s)
    (h1 : 0 ≤ x1) (h1' : x1 < s) (h2 : 0 ≤ x2) (h2' : x2 < s)
    (he : y1 * s + x1 = y2 * s + x2) : y1 = y2 ∧ x1 = x2 := by
  have hy : y1 = y2 := by
    have d1 : (y1 * s + x1) / s = y1 := by
      rw [add_comm, Int.add_mul_ediv_right _ _ (ne_of_gt hs),
        Int.ediv_eq_zero_of_lt h1 h1', zero_add]
    have d2 : (y2 * s + x2) / s = y2 := by
      rw [add_comm, Int.add_mul_ediv_right _ _ (ne_of_gt hs),
        Int.ediv_eq_zero_of_lt h2 h2', zero_add]
    rw [← d1, ← d2, he]
  refine ⟨hy, ?_⟩
  subst hy
  omega

theorem fillWrites_nodup {width height stride : ℤ} (hws : width ≤ stride) :
    (fillWrites width height stride).Nodup := by
  unfold fillWrites
  rw [List.nodup_flatMap]
  constructor
  · intro y _
    refine List.Nodup.map ?_ (intRange_nodup 0 (width - 1))
    intro m n h
    have h' : y * stride + m = y * stride + n := h
    omega
  · refine (intRange_nodup 0 (height - 1)).imp ?_
    intro y1 y2 hne
    simp only [Function.onFun, List.disjoint_left]
    intro i hi1 hi2
    simp only [List.mem_map, mem_intRange] at hi1 hi2
    obtain ⟨x1, ⟨hx10, hx11⟩, he1⟩ := hi1
    obtain ⟨x2, ⟨hx20, hx21⟩, he2⟩ := hi2
    have hs : 0 < stride := by omega
    have := index_decomp_unique hs hx10 (by omega) hx20 (by omega)
      (he1.trans he2.symm)
    exact hne this.1

/-- Claim C1: with `stride ≥ width ≥ 0`, the background-fill loop of
`drawFrame` performs exactly `height * width` writes, all pairwise-distinct
indices of the form `y * stride + x` with `0 ≤ y < height`, `0 ≤ x < width`;
every written index is nonnegative, below `height * stride`, and its column
`i % stride` lies below `width` (never in the padding region
`[width, stride)`). -/
theorem fill_background_safe (width height stride : ℤ) (hws : width ≤ stride) :
    (fillWrites width height stride).length = height.toNat * width.toNat ∧
    (fillWrites width height stride).Nodup ∧
    (∀ i ∈ fillWrites width height stride,
      0 ≤ i ∧ i < height * stride ∧ i % stride < width) ∧
    (∀ i, i ∈ fillWrites width height stride ↔
      ∃ y, 0 ≤ y ∧ y < height ∧ ∃ x, 0 ≤ x ∧ x < width ∧ i = y * stride + x) := by
  refine ⟨fillWrites_length width height stride, fillWrites_nodup hws, ?_,
    fun i => mem_fillWrites⟩
  intro i hi
  obtain ⟨y, hy0, hy1, x, hx0, hx1, rfl⟩ := mem_fillWrites.mp hi
  have hs : 0 < stride := by omega
  have hnn : 0 ≤ y * stride + x := by positivity
  refine ⟨hnn, ?_, ?_⟩
  · have h1 : (y + 1) * stride ≤ height * stride :=
      mul_le_mul_of_nonneg_right (by omega) (le_of_lt hs)
    nlinarith
  · have : (y * stride + x) % stride = x := by
      rw [add_comm, Int.add_mul_emod_self]
      exact Int.emod_eq_of_lt hx0 (by omega)
    rw [this]
    exact hx1

/-- Witness for C1 at a concrete buffer: width 2, height 2, stride 3. -/
theorem fill_background_safe_witness :
    (2 : ℤ) ≤ 3 ∧
    ((fillWrites 2 2 3).length = (2 : ℤ).toNat * (2 : ℤ).toNat ∧
    (fillWrites 2 2 3).Nodup ∧
    (∀ i ∈ fillWrites 2 2 3, 0 ≤ i ∧ i < 2 * 3 ∧ i % 3 < 2) ∧
    (∀ i, i ∈ fillWrites 2 2 3 ↔
      ∃ y, 0 ≤ y ∧ y < 2 ∧ ∃ x, 0 ≤ x ∧ x < 2 ∧ i = y * 3 + x)) :=
  ⟨by decide, fill_background_safe 2 2 3 (by decide)⟩

theorem truncQ_of_nonneg {q : ℚ} (h : 0 ≤ q) : truncQ q = ⌊q⌋ := if_pos h

theorem cycleOf_eq_floor {t : ℚ} (ht : 0 ≤ t) :
    cycleOf t = t - 4 * (⌊t / 4⌋ : ℚ) := by
  unfold cycleOf fmodQ
  rw [truncQ_of_nonneg (div_nonneg ht (by norm_num))]

theorem cycleOf_bounds {t : ℚ} (ht : 0 ≤ t) : 0 ≤ cycleOf t ∧ cycleOf t < 4 := by
  rw [cycleOf_eq_floor ht]
  have h1 : (⌊t / 4⌋ : ℚ) ≤ t / 4 := Int.floor_le _
  have h2 : t / 4 < ⌊t / 4⌋ + 1 := Int.lt_floor_add_one _
  constructor <;> linarith

theorem progress_up {t : ℚ} (h : cycleOf t < 2) :
    progressOf t = cycleOf t / 2 := by
  unfold progressOf
  rw [if_pos h]

theorem progress_down {t : ℚ} (h : 2 ≤ cycleOf t) :
    progressOf t = 1 - (cycleOf t - 2) / 2 := by
  unfold progressOf
  rw [if_neg (not_lt.mpr h)]

theorem progress_bounds {t : ℚ} (ht : 0 ≤ t) :
    0 ≤ progressOf t ∧ progressOf t ≤ 1 := by
  have hb := cycleOf_bounds ht
  by_cases h : cycleOf t < 2
  · rw [progress_up h]
    constructor <;> linarith [hb.1, hb.2]
  · have h' := not_lt.mp h
    rw [progress_down h']
    constructor <;> linarith [hb.1, hb.2]

theorem cx_slope_up {w t1 t2 : ℚ} (h1 : 0 ≤ t1) (h2 : 0 ≤ t2)
    (hk : ⌊t1 / 4⌋ = ⌊t2 / 4⌋) (hc1 : cycleOf t1 < 2) (hc2 : cycleOf t2 < 2) :
    cxOf w t2 - cxOf w t1 = (t2 - t1) * (w - 200) / 2 := by
  have e1 := cycleOf_eq_floor h1
  have e2 := cycleOf_eq_floor h2
  unfold cxOf leftEdge rightEdge
  rw [progress_up hc1, progress_up hc2, e1, e2, hk]
  ring

theorem cx_slope_down {w t1 t2 : ℚ} (h1 : 0 ≤ t1) (h2 : 0 ≤ t2)
    (hk : ⌊t1 / 4⌋ = ⌊t2 / 4⌋) (hc1 : 2 ≤ cycleOf t1) (hc2 : 2 ≤ cycleOf t2) :
    cxOf w t2 - cxOf w t1 = -((t2 - t1) * (w - 200) / 2) := by
  have e1 := cycleOf_eq_floor h1
  have e2 := cycleOf_eq_floor h2
  unfold cxOf leftEdge rightEdge
  rw [progress_down hc1, progress_down hc2, e1, e2, hk]
  ring

theorem progress_lipschitz_le {t1 t2 : ℚ} (h1 : 0 ≤ t1) (hle : t1 ≤ t2) :
    |progressOf t1 - progressOf t2| ≤ (t2 - t1) / 2 := by
  have h2 : 0 ≤ t2 := le_trans h1 hle
  have hb1 := cycleOf_bounds h1
  have hb2 := cycleOf_bounds h2
  rcases le_or_lt 2 (t2 - t1) with hbig | hnear
  · have p1 := progress_bounds h1
    have p2 := progress_bounds h2
    exact abs_le.mpr ⟨by linarith [p1.1, p1.2, p2.1, p2.2],
      by linarith [p1.1, p1.2, p2.1, p2.2]⟩
  · have e1 := cycleOf_eq_floor h1
    have e2 := cycleOf_eq_floor h2
    have hf1l : (⌊t1 / 4⌋ : ℚ) ≤ t1 / 4 := Int.floor_le _
    have hf1u : t1 / 4 < ⌊t1 / 4⌋ + 1 := Int.lt_floor_add_one _
    have hf2l : (⌊t2 / 4⌋ : ℚ) ≤ t2 / 4 := Int.floor_le _
    have hf2u : t2 / 4 < ⌊t2 / 4⌋ + 1 := Int.lt_floor_add_one _
    have hkle : ⌊t1 / 4⌋ ≤ ⌊t2 / 4⌋ := Int.floor_le_floor (by linarith)
    rcases eq_or_lt_of_le hkle with hk | hk
    · have hcc : cycleOf t2 - cycleOf t1 = t2 - t1 := by
        rw [e1, e2, hk]
        ring
      by_cases b1 : cycleOf t1 < 2
      · by_cases b2 : cycleOf t2 < 2
        · rw [progress_up b1, progress_up b2]
          exact abs_le.mpr ⟨by linarith, by linarith⟩
        · have hb2' : 2 ≤ cycleOf t2 := not_lt.mp b2
          rw [progress_up b1, progress_down hb2']
          exact abs_le.mpr ⟨by linarith, by linarith⟩
      · have hb1' : 2 ≤ cycleOf t1 := not_lt.mp b1
        have hb2' : 2 ≤ cycleOf t2 := by linarith
        rw [progress_down hb1', progress_down hb2']
        exact abs_le.mpr ⟨by linarith, by linarith⟩
    · have hq : (4 : ℚ) * ⌊t2 / 4⌋ ≤ t2 := by linarith
      have hqk : (⌊t2 / 4⌋ : ℚ) < (⌊t1 / 4⌋ : ℚ) + 2 := by linarith
      have hqk' : ⌊t2 / 4⌋ < ⌊t1 / 4⌋ + 2 := by exact_mod_cast hqk
      have hk21 : ⌊t2 / 4⌋ = ⌊t1 / 4⌋ + 1 := by omega
      have hk21Q : (⌊t2 / 4⌋ : ℚ) = (⌊t1 / 4⌋ : ℚ) + 1 := by exact_mod_cast hk21
      have hc1gt : 2 < cycleOf t1 := by
        rw [e1]
        linarith
      have hc2lt : cycleOf t2 < 2 := by
        rw [e2]
        linarith
      rw [progress_down (le_of_lt hc1gt), progress_up hc2lt, e1, e2]
      exact abs_le.mpr ⟨by linarith, by linarith⟩

theorem progress_lipschitz {t1 t2 : ℚ} (h1 : 0 ≤ t1) (h2 : 0 ≤ t2) :
    |progressOf t1 - progressOf t2| ≤ |t1 - t2| / 2 := by
  rcases le_total t1 t2 with h | h
  · have haux := progress_lipschitz_le h1 h
    have he : |t1 - t2| = t2 - t1 := by
      rw [abs_sub_comm]
      exact abs_of_nonneg (by linarith)
    rw [he]
    exact haux
  · have haux := progress_lipschitz_le h2 h
    have he : |t1 - t2| = t1 - t2 := abs_of_nonneg (by linarith)
    rw [he]
    calc |progressOf t1 - progressOf t2|
        = |progressOf t2 - progressOf t1| := abs_sub_comm _ _
      _ ≤ (t1 - t2) / 2 := haux

/-- Claim C2: for a buffer width beyond the two 100-pixel margins, the
circle centre `cx` of `drawFrame`, as a function of the time accumulator
`t ≥ 0`, is periodic with period 4; it is linear with slope
`(width - 200) / 2` on the rising half-period (`t mod 4 < 2`) and with the
opposite slope on the falling half-period, hence strictly increasing and
strictly decreasing there; it is continuous at every point of its domain
(in particular at both breakpoints); and it stays within
`[leftEdge, rightEdge]`. -/
theorem cx_waveform (w : ℚ) (hw : 200 < w) :
    (∀ t, 0 ≤ t → cxOf w (t + 4) = cxOf w t) ∧
    (∀ t1 t2, 0 ≤ t1 → 0 ≤ t2 → ⌊t1 / 4⌋ = ⌊t2 / 4⌋ →
      cycleOf t1 < 2 → cycleOf t2 < 2 →
      cxOf w t2 - cxOf w t1 = (t2 - t1) * (w - 200) / 2) ∧
    (∀ t1 t2, 0 ≤ t1 → 0 ≤ t2 → ⌊t1 / 4⌋ = ⌊t2 / 4⌋ →
      2 ≤ cycleOf t1 → 2 ≤ cycleOf t2 →
      cxOf w t2 - cxOf w t1 = -((t2 - t1) * (w - 200) / 2)) ∧
    (∀ t1 t2, 0 ≤ t1 → t1 < t2 → ⌊t1 / 4⌋ = ⌊t2 / 4⌋ → cycleOf t2 < 2 →
      cxOf w t1 < cxOf w t2) ∧
    (∀ t1 t2, 0 ≤ t1 → t1 < t2 → ⌊t1 / 4⌋ = ⌊t2 / 4⌋ → 2 ≤ cycleOf t1 →
      cxOf w t2 < cxOf w t1) ∧
    (∀ t0, 0 ≤ t0 → ∀ e : ℚ, 0 < e → ∃ d : ℚ, 0 < d ∧
      ∀ t, 0 ≤ t → |t - t0| < d → |cxOf w t - cxOf w t0| < e) ∧
    (∀ t, 0 ≤ t → leftEdge ≤ cxOf w t ∧ cxOf w t ≤ rightEdge w) := by
  have hsame : ∀ t1 t2 : ℚ, 0 ≤ t1 → ⌊t1 / 4⌋ = ⌊t2 / 4⌋ → t1 ≤ t2 →
      cycleOf t2 - cycleOf t1 = t2 - t1 := by
    intro t1 t2 h1 hk hle
    have h2 : 0 ≤ t2 := le_trans h1 hle
    rw [cycleOf_eq_floor h1, cycleOf_eq_floor h2, hk]
    ring
  refine ⟨?_, ?_, ?_, ?_, ?_, ?_, ?_⟩
  · intro t ht
    have e1 := cycleOf_eq_floor ht
    have e2 := cycleOf_eq_floor (by linarith : (0 : ℚ) ≤ t + 4)
    have hf : ⌊(t + 4) / 4⌋ = ⌊t / 4⌋ + 1 := by
      have hq : (t + 4) / 4 = t / 4 + 1 := by ring
      rw [hq, Int.floor_add_one]
    have hc : cycleOf (t + 4) = cycleOf t := by
      rw [e1, e2, hf]
      push_cast
      ring
    unfold cxOf progressOf
    rw [hc]
  · intro t1 t2 h1 h2 hk hc1 hc2
    exact cx_slope_up h1 h2 hk hc1 hc2
  · intro t1 t2 h1 h2 hk hc1 hc2
    exact cx_slope_down h1 h2 hk hc1 hc2
  · intro t1 t2 h1 hlt hk hc2
    have h2 : 0 ≤ t2 := by linarith
    have hc1 : cycleOf t1 < 2 := by
      have := hsame t1 t2 h1 hk (le_of_lt hlt)
      linarith
    have hs := @cx_slope_up w t1 t2 h1 h2 hk hc1 hc2
    have hp : 0 < (t2 - t1) * (w - 200) :=
      mul_pos (by linarith) (by linarith)
    linarith
  · intro t1 t2 h1 hlt hk hc1
    have h2 : 0 ≤ t2 := by linarith
    have hc2 : 2 ≤ cycleOf t2 := by
      have := hsame t1 t2 h1 hk (le_of_lt hlt)
      linarith
    have hs := @cx_slope_down w t1 t2 h1 h2 hk hc1 hc2
    have hp : 0 < (t2 - t1) * (w - 200) :=
      mul_pos (by linarith) (by linarith)
    linarith
  · intro t0 ht0 e he
    refine ⟨2 * e / (w - 200), div_pos (by linarith) (by linarith), ?_⟩
    intro t ht hnear
    have hp := progress_lipschitz ht ht0
    have hdiff : cxOf w t - cxOf w t0 =
        (progressOf t - progressOf t0) * (w - 200) := by
      unfold cxOf leftEdge rightEdge
      ring
    rw [hdiff, abs_mul, abs_of_pos (by linarith : (0 : ℚ) < w - 200)]
    calc |progressOf t - progressOf t0| * (w - 200)
        ≤ (|t - t0| / 2) * (w - 200) :=
          mul_le_mul_of_nonneg_right hp (by linarith)
      _ < (2 * e / (w - 200) / 2) * (w - 200) := by
          apply mul_lt_mul_of_pos_right ?_ (by linarith)
          linarith
      _ = e := by
          have hwne : w - 200 ≠ 0 := ne_of_gt (by linarith)
          field_simp
          ring
  · intro t ht
    have hp := progress_bounds ht
    have hq1 : 0 ≤ progressOf t * (w - 200) :=
      mul_nonneg hp.1 (by linarith)
    have hq2 : progressOf t * (w - 200) ≤ 1 * (w - 200) :=
      mul_le_mul_of_nonneg_right hp.2 (by linarith)
    unfold cxOf leftEdge rightEdge
    constructor <;> linarith

/-- Witness for C2 at the concrete width 800 and time 1. -/
theorem cx_waveform_witness :
    (200 : ℚ) < 800 ∧ cxOf 800 (1 + 4) = cxOf 800 1 :=
  ⟨by norm_num, (cx_waveform 800 (by norm_num)).1 1 (by norm_num)⟩

/-- The bounding-box bound `int minY = std::max(0, static_cast<int>(cy - radius))`. -/
def minYOf (cy r : ℚ) : ℤ := max 0 (truncQ (cy - r))

/-- The bounding-box bound `int maxY = std::min(height - 1, static_cast<int>(cy + radius))`. -/
def maxYOf (height : ℤ) (cy r : ℚ) : ℤ := min (height - 1) (truncQ (cy + r))

/-- The bounding-box bound `int minX = std::max(0, static_cast<int>(cx - radius))`. -/
def minXOf (cx r : ℚ) : ℤ := max 0 (truncQ (cx - r))

/-- The bounding-box bound `int maxX = std::min(width - 1, static_cast<int>(cx + radius))`. -/
def maxXOf (width : ℤ) (cx r : ℚ) : ℤ := min (width - 1) (truncQ (cx + r))

/-- The distance test `dx * dx + dy * dy <= radiusSq` of `drawFrame`. -/
def inCircle (cx cy rsq : ℚ) (x y : ℤ) : Prop :=
  ((x : ℚ) - cx) * ((x : ℚ) - cx) + ((y : ℚ) - cy) * ((y : ℚ) - cy) ≤ rsq

instance (cx cy rsq : ℚ) (x y : ℤ) : Decidable (inCircle cx cy rsq x y) := by
  unfold inCircle
  infer_instance

/-- The indices written by the circle loop of `drawFrame`: every bounding-box
cell passing the distance test, at index `y * stride + x`, in loop order. -/
def circleWrites (width height stride : ℤ) (cx cy r : ℚ) : List ℤ :=
  (intRange (minYOf cy r) (maxYOf height cy r)).flatMap fun y =>
    ((intRange (minXOf cx r) (maxXOf width cx r)).filter
      (fun x => decide (inCircle cx cy (r * r) x y))).map (fun x => y * stride + x)

/-- The circle-drawing step of `drawFrame` as a buffer transformer. -/
def drawCircle (c : ℕ) (width height stride : ℤ) (cx cy r : ℚ)
    (buf : ℤ → ℕ) : ℤ → ℕ :=
  (circleWrites width height stride cx cy r).foldl
    (fun b i => Function.update b i c) buf

/-- One frame of `drawFrame` on a locked buffer: background fill followed by
the circle pass, with the centre given by the triangular waveform. -/
def drawFrame (isRGBA : Bool) (width height stride : ℤ) (t : ℚ)
    (buf : ℤ → ℕ) : ℤ → ℕ :=
  drawCircle (circleColor isRGBA) width height stride
    (cxOf (width : ℚ) t) (cyOf (height : ℚ)) radius
    (fillBackground (bgColor isRGBA) width height stride buf)

theorem mem_circleWrites {width height stride : ℤ} {cx cy r : ℚ} {i : ℤ} :
    i ∈ circleWrites width height stride cx cy r ↔
      ∃ y, minYOf cy r ≤ y ∧ y ≤ maxYOf height cy r ∧
        ∃ x, minXOf cx r ≤ x ∧ x ≤ maxXOf width cx r ∧
          inCircle cx cy (r * r) x y ∧ i = y * stride + x := by
  unfold circleWrites
  simp only [List.mem_flatMap, List.mem_map, List.mem_filter, mem_intRange,
    decide_eq_true_eq]
  constructor
  · rintro ⟨y, ⟨hy1, hy2⟩, x, ⟨⟨hx1, hx2⟩, hin⟩, rfl⟩
    exact ⟨y, hy1, hy2, x, hx1, hx2, hin, rfl⟩
  · rintro ⟨y, hy1, hy2, x, hx1, hx2, hin, rfl⟩
    exact ⟨y, ⟨hy1, hy2⟩, x, ⟨⟨hx1, hx2⟩, hin⟩, rfl⟩

theorem truncQ_le_of_le {q : ℚ} {n : ℤ} (hn : 0 ≤ n) (h : q ≤ (n : ℚ)) :
    truncQ q ≤ n := by
  unfold truncQ
  by_cases h0 : 0 ≤ q
  · rw [if_pos h0]
    have hf := Int.floor_le_floor h
    rwa [Int.floor_intCast] at hf
  · rw [if_neg h0]
    have hq : q ≤ ((0 : ℤ) : ℚ) := by
      push_cast
      linarith
    have hc := Int.ceil_le_ceil hq
    rw [Int.ceil_intCast] at hc
    omega

theorem le_truncQ_of_le {q : ℚ} {n : ℤ} (hn : 0 ≤ n) (h : (n : ℚ) ≤ q) :
    n ≤ truncQ q := by
  have hnq : (0 : ℚ) ≤ (n : ℚ) := by exact_mod_cast hn
  have h0 : 0 ≤ q := le_trans hnq h
  unfold truncQ
  rw [if_pos h0]
  exact Int.le_floor.mpr h

/-- The clamped bounding box misses no in-buffer point that passes the
distance test. -/
theorem inCircle_mem_box {width height : ℤ} {cx cy r : ℚ} {x y : ℤ}
    (hr : 0 ≤ r) (hx0 : 0 ≤ x) (hx1 : x < width) (hy0 : 0 ≤ y) (hy1 : y < height)
    (hin : inCircle cx cy (r * r) x y) :
    minXOf cx r ≤ x ∧ x ≤ maxXOf width cx r ∧
      minYOf cy r ≤ y ∧ y ≤ maxYOf height cy r := by
  unfold inCircle at hin
  have hxl : cx - r ≤ (x : ℚ) := by
    nlinarith [mul_self_nonneg ((y : ℚ) - cy), mul_self_nonneg ((x : ℚ) - cx + r)]
  have hxu : (x : ℚ) ≤ cx + r := by
    nlinarith [mul_self_nonneg ((y : ℚ) - cy), mul_self_nonneg ((x : ℚ) - cx - r)]
  have hyl : cy - r ≤ (y : ℚ) := by
    nlinarith [mul_self_nonneg ((x : ℚ) - cx), mul_self_nonneg ((y : ℚ) - cy + r)]
  have hyu : (y : ℚ) ≤ cy + r := by
    nlinarith [mul_self_nonneg ((x : ℚ) - cx), mul_self_nonneg ((y : ℚ) - cy - r)]
  refine ⟨max_le hx0 (truncQ_le_of_le hx0 hxl), le_min (by omega) (le_truncQ_of_le hx0 hxu),
    max_le hy0 (truncQ_le_of_le hy0 hyl), le_min (by omega) (le_truncQ_of_le hy0 hyu)⟩

theorem fillBackground_read {c : ℕ} {width height stride : ℤ} {buf : ℤ → ℕ}
    {x y : ℤ} (hx0 : 0 ≤ x) (hx1 : x < width) (hy0 : 0 ≤ y) (hy1 : y < height) :
    fillBackground c width height stride buf (y * stride + x) = c := by
  unfold fillBackground
  rw [foldl_update_read, if_pos]
  exact mem_fillWrites.mpr ⟨y, hy0, hy1, x, hx0, hx1, rfl⟩

theorem bgColor_ne_circleColor (isRGBA : Bool) :
    bgColor isRGBA ≠ circleColor isRGBA := by
  cases isRGBA <;> decide

/-- Claim C3: in a frame drawn by `drawFrame`, an in-buffer pixel `(x, y)`
holds the circle colour after the circle pass exactly when
`(x - cx)^2 + (y - cy)^2 ≤ radius^2` (boundary included), and the clamped
bounding box excludes no in-buffer point passing the distance test. -/
theorem draw_frame_circle_iff (isRGBA : Bool) (width height stride : ℤ) (t : ℚ)
    (buf : ℤ → ℕ) (x y : ℤ) (hws : width ≤ stride)
    (hx0 : 0 ≤ x) (hx1 : x < width) (hy0 : 0 ≤ y) (hy1 : y < height) :
    (drawFrame isRGBA width height stride t buf (y * stride + x) = circleColor isRGBA ↔
      inCircle (cxOf (width : ℚ) t) (cyOf (height : ℚ)) (radius * radius) x y) ∧
    (inCircle (cxOf (width : ℚ) t) (cyOf (height : ℚ)) (radius * radius) x y →
      minXOf (cxOf (width : ℚ) t) radius ≤ x ∧
      x ≤ maxXOf width (cxOf (width : ℚ) t) radius ∧
      minYOf (cyOf (height : ℚ)) radius ≤ y ∧
      y ≤ maxYOf height (cyOf (height : ℚ)) radius) := by
  have hr : (0 : ℚ) ≤ radius := by norm_num [radius]
  have hbox : inCircle (cxOf (width : ℚ) t) (cyOf (height : ℚ)) (radius * radius) x y →
      minXOf (cxOf (width : ℚ) t) radius ≤ x ∧
      x ≤ maxXOf width (cxOf (width : ℚ) t) radius ∧
      minYOf (cyOf (height : ℚ)) radius ≤ y ∧
      y ≤ maxYOf height (cyOf (height : ℚ)) radius :=
    fun hin => inCircle_mem_box hr hx0 hx1 hy0 hy1 hin
  refine ⟨?_, hbox⟩
  have hs : 0 < stride := by omega
  unfold drawFrame drawCircle
  rw [foldl_update_read]
  by_cases hmem : (y * stride + x) ∈
      circleWrites width height stride (cxOf (width : ℚ) t) (cyOf (height : ℚ)) radius
  · rw [if_pos hmem]
    simp only [true_iff, eq_self_iff_true]
    obtain ⟨y1, hy11, hy12, x1, hx11, hx12, hin1, heq⟩ := mem_circleWrites.mp hmem
    have hx10 : 0 ≤ x1 := le_trans (le_max_left 0 _) hx11
    have hx1w : x1 < width := by
      have := le_trans hx12 (min_le_left _ _)
      omega
    have hd := index_decomp_unique hs hx0 (by omega) hx10 (by omega) heq
    obtain ⟨hyy, hxx⟩ := hd
    rw [hyy, hxx]
    exact hin1
  · rw [if_neg hmem, fillBackground_read hx0 hx1 hy0 hy1]
    constructor
    · intro h
      exact absurd h (bgColor_ne_circleColor isRGBA)
    · intro hin
      obtain ⟨hb1, hb2, hb3, hb4⟩ := hbox hin
      exact absurd (mem_circleWrites.mpr ⟨y, hb3, hb4, x, hb1, hb2, hin, rfl⟩) hmem

/-- Witness for C3 on the spec's end-to-end scenario: an 800 by 480 RGBA
buffer with stride 800 at time 0, read at the circle centre (100, 240). -/
theorem draw_frame_circle_iff_witness :
    ((800 : ℤ) ≤ 800 ∧ (0 : ℤ) ≤ 100 ∧ (100 : ℤ) < 800 ∧
      (0 : ℤ) ≤ 240 ∧ (240 : ℤ) < 480) ∧
    ((drawFrame true 800 480 800 0 (fun _ => 0) (240 * 800 + 100) = circleColor true ↔
      inCircle (cxOf ((800 : ℤ) : ℚ) 0) (cyOf ((480 : ℤ) : ℚ)) (radius * radius) 100 240) ∧
    (inCircle (cxOf ((800 : ℤ) : ℚ) 0) (cyOf ((480 : ℤ) : ℚ)) (radius * radius) 100 240 →
      minXOf (cxOf ((800 : ℤ) : ℚ) 0) radius ≤ 100 ∧
      (100 : ℤ) ≤ maxXOf 800 (cxOf ((800 : ℤ) : ℚ) 0) radius ∧
      minYOf (cyOf ((480 : ℤ) : ℚ)) radius ≤ 240 ∧
      (240 : ℤ) ≤ maxYOf 480 (cyOf ((480 : ℤ) : ℚ)) radius)) :=
  ⟨⟨by decide, by decide, by decide, by decide, by decide⟩,
    draw_frame_circle_iff true 800 480 800 0 (fun _ => 0) 100 240
      (by decide) (by decide) (by decide) (by decide) (by decide)⟩

/-- The session globals of the pixel renderer: `g_window` (`none` models a
null `ANativeWindow*`), `g_running`, and the number of outstanding window
references (`ANativeWindow_fromSurface` acquires one, `ANativeWindow_release`
drops one). -/
structure SessionState where
  window : Option ℕ
  running : Bool
  refs : ℕ
deriving DecidableEq

/-- `nativeOnSurfaceCreated`: store the window obtained from the surface
(returning early if it is null), set `g_running = true`, create the render
thread; when `pthread_create` returns a nonzero result, clear `g_running`,
release the window and null out `g_window`. -/
def nativeOnSurfaceCreated (fromSurface : Option ℕ) (pthreadResult : ℤ)
    (s : SessionState) : SessionState :=
  match fromSurface with
  | none => { s with window := none }
  | some w =>
    let s1 : SessionState := { s with window := some w, refs := s.refs + 1 }
    let s2 : SessionState := { s1 with running := true }
    if pthreadResult ≠ 0 then
      { s2 with running := false, refs := s2.refs - 1, window := none }
    else
      s2

/-- Claim C9: when thread creation fails in the surface-created handler, the
acquired window reference is released, the running flag is cleared and the
window handle is reset to absent, leaving the idle session state unchanged
(as if no session had started). -/
theorem surface_created_thread_failure (w : ℕ) (res : ℤ) (hres : res ≠ 0) :
    nativeOnSurfaceCreated (some w) res ⟨none, false, 0⟩ =
      (⟨none, false, 0⟩ : SessionState) := by
  unfold nativeOnSurfaceCreated
  simp [hres]

/-- Witness for C9 with window handle 7 and `pthread_create` result 11. -/
theorem surface_created_thread_failure_witness :
    (11 : ℤ) ≠ 0 ∧
    nativeOnSurfaceCreated (some 7) 11 ⟨none, false, 0⟩ =
      (⟨none, false, 0⟩ : SessionState) :=
  ⟨by decide, surface_created_thread_failure 7 11 (by decide)⟩

end NativeRenderer

namespace GLRenderer

/-- The animation globals of the GPU renderer: `g_circleX`, `g_circleY`,
`g_velocityX`, `g_velocityY`, in normalized `[0, 1]` coordinates. -/
structure AnimState where
  circleX : ℚ
  circleY : ℚ
  velocityX : ℚ
  velocityY : ℚ

/-- The constant `g_circleRadius = 0.1f` (normalized radius). -/
def g_circleRadius : ℚ := 1 / 10

/-- `updateAnimation`: integrate the position by the velocity, then for each
axis independently, if the circle's edge leaves `[0, 1]`, negate that axis's
velocity and clamp the position with
`std::max(radius, std::min(1 - radius, p))`. -/
def updateAnimation (s : AnimState) : AnimState :=
  let x1 := s.circleX + s.velocityX
  let y1 := s.circleY + s.velocityY
  { circleX := if x1 - g_circleRadius < 0 ∨ x1 + g_circleRadius > 1 then
      max g_circleRadius (min (1 - g_circleRadius) x1) else x1
    circleY := if y1 - g_circleRadius < 0 ∨ y1 + g_circleRadius > 1 then
      max g_circleRadius (min (1 - g_circleRadius) y1) else y1
    velocityX := if x1 - g_circleRadius < 0 ∨ x1 + g_circleRadius > 1 then
      -s.velocityX else s.velocityX
    velocityY := if y1 - g_circleRadius < 0 ∨ y1 + g_circleRadius > 1 then
      -s.velocityY else s.velocityY }

theorem updateAnimation_circleX (s : AnimState) :
    (updateAnimation s).circleX =
      if s.circleX + s.velocityX - g_circleRadius < 0 ∨
          s.circleX + s.velocityX + g_circleRadius > 1 then
        max g_circleRadius (min (1 - g_circleRadius) (s.circleX + s.velocityX))
      else s.circleX + s.velocityX := rfl

theorem updateAnimation_circleY (s : AnimState) :
    (updateAnimation s).circleY =
      if s.circleY + s.velocityY - g_circleRadius < 0 ∨
          s.circleY + s.velocityY + g_circleRadius > 1 then
        max g_circleRadius (min (1 - g_circleRadius) (s.circleY + s.velocityY))
      else s.circleY + s.velocityY := rfl

theorem updateAnimation_velocityX (s : AnimState) :
    (updateAnimation s).velocityX =
      if s.circleX + s.velocityX - g_circleRadius < 0 ∨
          s.circleX + s.velocityX + g_circleRadius > 1 then
        -s.velocityX
      else s.velocityX := rfl

theorem updateAnimation_velocityY (s : AnimState) :
    (updateAnimation s).velocityY =
      if s.circleY + s.velocityY - g_circleRadius < 0 ∨
          s.circleY + s.velocityY + g_circleRadius > 1 then
        -s.velocityY
      else s.velocityY := rfl

/-- Claim C4: per axis, whenever the integrated position would put the
circle's edge outside `[0, 1]`, `updateAnimation` negates exactly that
axis's velocity once and clamps that axis's position into
`[radius, 1 - radius]`; otherwise the axis keeps its velocity and its
integrated position. -/
theorem update_animation_bounce (s : AnimState) :
    ((s.circleX + s.velocityX - g_circleRadius < 0 ∨
        s.circleX + s.velocityX + g_circleRadius > 1) →
      (updateAnimation s).velocityX = -s.velocityX ∧
      (updateAnimation s).circleX =
        max g_circleRadius (min (1 - g_circleRadius) (s.circleX + s.velocityX)) ∧
      g_circleRadius ≤ (updateAnimation s).circleX ∧
      (updateAnimation s).circleX ≤ 1 - g_circleRadius) ∧
    (¬(s.circleX + s.velocityX - g_circleRadius < 0 ∨
        s.circleX + s.velocityX + g_circleRadius > 1) →
      (updateAnimation s).velocityX = s.velocityX ∧
      (updateAnimation s).circleX = s.circleX + s.velocityX) ∧
    ((s.circleY + s.velocityY - g_circleRadius < 0 ∨
        s.circleY + s.velocityY + g_circleRadius > 1) →
      (updateAnimation s).velocityY = -s.velocityY ∧
      (updateAnimation s).circleY =
        max g_circleRadius (min (1 - g_circleRadius) (s.circleY + s.velocityY)) ∧
      g_circleRadius ≤ (updateAnimation s).circleY ∧
      (updateAnimation s).circleY ≤ 1 - g_circleRadius) ∧
    (¬(s.circleY + s.velocityY - g_circleRadius < 0 ∨
        s.circleY + s.velocityY + g_circleRadius > 1) →
      (updateAnimation s).velocityY = s.velocityY ∧
      (updateAnimation s).circleY = s.circleY + s.velocityY) := by
  refine ⟨fun h => ?_, fun h => ?_, fun h => ?_, fun h => ?_⟩
  · rw [updateAnimation_velocityX, updateAnimation_circleX, if_pos h, if_pos h]
    exact ⟨rfl, rfl, le_max_left _ _,
      max_le (by norm_num [g_circleRadius]) (min_le_left _ _)⟩
  · rw [updateAnimation_velocityX, updateAnimation_circleX, if_neg h, if_neg h]
    exact ⟨rfl, rfl⟩
  · rw [updateAnimation_velocityY, updateAnimation_circleY, if_pos h, if_pos h]
    exact ⟨rfl, rfl, le_max_left _ _,
      max_le (by norm_num [g_circleRadius]) (min_le_left _ _)⟩
  · rw [updateAnimation_velocityY, updateAnimation_circleY, if_neg h, if_neg h]
    exact ⟨rfl, rfl⟩

/-- Witness for C4 at state (0.95, 0.5, 0.01, 0.015): the x edge would reach
1.06, so the x velocity flips and the x position clamps to 0.9. -/
theorem update_animation_bounce_witness :
    ((19 : ℚ) / 20 + 1 / 100 - g_circleRadius < 0 ∨
      (19 : ℚ) / 20 + 1 / 100 + g_circleRadius > 1) ∧
    (updateAnimation ⟨19 / 20, 1 / 2, 1 / 100, 3 / 200⟩).velocityX = -(1 / 100) :=
  ⟨by norm_num [g_circleRadius],
    ((update_animation_bounce ⟨19 / 20, 1 / 2, 1 / 100, 3 / 200⟩).1
      (by norm_num [g_circleRadius])).1⟩

/-- Claim C10: after any single `updateAnimation` call, from any state, both
centre coordinates lie in `[radius, 1 - radius]`. -/
theorem update_animation_in_bounds (s : AnimState) :
    g_circleRadius ≤ (updateAnimation s).circleX ∧
    (updateAnimation s).circleX ≤ 1 - g_circleRadius ∧
    g_circleRadius ≤ (updateAnimation s).circleY ∧
    (updateAnimation s).circleY ≤ 1 - g_circleRadius := by
  have hX : g_circleRadius ≤ (updateAnimation s).circleX ∧
      (updateAnimation s).circleX ≤ 1 - g_circleRadius := by
    rw [updateAnimation_circleX]
    split_ifs with h
    · exact ⟨le_max_left _ _,
        max_le (by norm_num [g_circleRadius]) (min_le_left _ _)⟩
    · push_neg at h
      obtain ⟨h1, h2⟩ := h
      constructor <;> linarith
  have hY : g_circleRadius ≤ (updateAnimation s).circleY ∧
      (updateAnimation s).circleY ≤ 1 - g_circleRadius := by
    rw [updateAnimation_circleY]
    split_ifs with h
    · exact ⟨le_max_left _ _,
        max_le (by norm_num [g_circleRadius]) (min_le_left _ _)⟩
    · push_neg at h
      obtain ⟨h1, h2⟩ := h
      constructor <;> linarith
  exact ⟨hX.1, hX.2, hY.1, hY.2⟩

/-- No boundary contact in the step taken from state `s`: neither axis's
bounce branch fires (the integrated edge stays inside `[0, 1]`). -/
def noContact (s : AnimState) : Prop :=
  ¬(s.circleX + s.velocityX - g_circleRadius < 0 ∨
      s.circleX + s.velocityX + g_circleRadius > 1) ∧
  ¬(s.circleY + s.velocityY - g_circleRadius < 0 ∨
      s.circleY + s.velocityY + g_circleRadius > 1)

instance (s : AnimState) : Decidable (noContact s) := by
  unfold noContact
  infer_instance

/-- Claim C5: if none of `N` consecutive `updateAnimation` steps triggers a
boundary contact on either axis, the position after the `N` steps is the
initial position plus `N` times the velocity, and the velocity is
unchanged (exact over ℚ, the real-arithmetic reading of the float code). -/
theorem update_animation_free_integration (s : AnimState) (N : ℕ)
    (h : ∀ i, i < N → noContact (updateAnimation^[i] s)) :
    (updateAnimation^[N] s).circleX = s.circleX + (N : ℚ) * s.velocityX ∧
    (updateAnimation^[N] s).circleY = s.circleY + (N : ℚ) * s.velocityY ∧
    (updateAnimation^[N] s).velocityX = s.velocityX ∧
    (updateAnimation^[N] s).velocityY = s.velocityY := by
  induction N with
  | zero => simp
  | succ n ih =>
    have hn : ∀ i, i < n → noContact (updateAnimation^[i] s) :=
      fun i hi => h i (by omega)
    obtain ⟨e1, e2, e3, e4⟩ := ih hn
    obtain ⟨hX, hY⟩ := h n (by omega)
    rw [Function.iterate_succ_apply']
    refine ⟨?_, ?_, ?_, ?_⟩
    · rw [updateAnimation_circleX, if_neg hX, e1, e3]
      push_cast
      ring
    · rw [updateAnimation_circleY, if_neg hY, e2, e4]
      push_cast
      ring
    · rw [updateAnimation_velocityX, if_neg hX]
      exact e3
    · rw [updateAnimation_velocityY, if_neg hY]
      exact e4

/-- Witness for C5: three contact-free steps from the initial state
(0.5, 0.5, 0.01, 0.015). -/
theorem update_animation_free_integration_witness :
    (∀ i, i < 3 → noContact (updateAnimation^[i] ⟨1 / 2, 1 / 2, 1 / 100, 3 / 200⟩)) ∧
    (updateAnimation^[3] ⟨1 / 2, 1 / 2, 1 / 100, 3 / 200⟩).circleX =
        1 / 2 + ((3 : ℕ) : ℚ) * (1 / 100) ∧
    (updateAnimation^[3] ⟨1 / 2, 1 / 2, 1 / 100, 3 / 200⟩).circleY =
        1 / 2 + ((3 : ℕ) : ℚ) * (3 / 200) ∧
    (updateAnimation^[3] ⟨1 / 2, 1 / 2, 1 / 100, 3 / 200⟩).velocityX = 1 / 100 ∧
    (updateAnimation^[3] ⟨1 / 2, 1 / 2, 1 / 100, 3 / 200⟩).velocityY = 3 / 200 := by
  have h : ∀ i, i < 3 →
      noContact (updateAnimation^[i] (⟨1 / 2, 1 / 2, 1 / 100, 3 / 200⟩ : AnimState)) := by
    intro i hi
    interval_cases i <;>
      norm_num [noContact, updateAnimation, g_circleRadius, Function.iterate_zero,
        Function.iterate_one, Function.iterate_succ_apply', id_eq]
  obtain ⟨c1, c2, c3, c4⟩ :=
    update_animation_free_integration ⟨1 / 2, 1 / 2, 1 / 100, 3 / 200⟩ 3 h
  exact ⟨h, c1, c2, c3, c4⟩

/-- The accumulation loop of `multiplyMatrix`:
`temp[i * 4 + j] += a[i * 4 + k] * b[k * 4 + j]` for `k = 0 .. 3`,
starting from `temp[i * 4 + j] = 0`. -/
def dotRow (a b : ℕ → ℚ) (i j : ℕ) : ℚ :=
  (List.range 4).foldl (fun acc k => acc + a (i * 4 + k) * b (k * 4 + j)) 0

/-- `multiplyMatrix` as a pure function on row-major 16-entry arrays: entry
`p` (row `p / 4`, column `p % 4`) of the product `a * b`. -/
def multiplyMatrix (a b : ℕ → ℚ) : ℕ → ℚ := fun p => dotRow a b (p / 4) (p % 4)

/-- `createTranslationMatrix`: identity diagonal with the translation in
entries 12 and 13 (all other entries zero-initialized). -/
def createTranslationMatrix (tx ty : ℚ) : ℕ → ℚ := fun p =>
  if p = 0 then 1 else if p = 5 then 1 else if p = 10 then 1
  else if p = 12 then tx else if p = 13 then ty else if p = 15 then 1 else 0

/-- The 4x4 identity in row-major order (a translation by zero). -/
def identityMat : ℕ → ℚ := createTranslationMatrix 0 0

theorem dotRow_eq (a b : ℕ → ℚ) (i j : ℕ) :
    dotRow a b i j =
      0 + a (i * 4 + 0) * b (0 * 4 + j) + a (i * 4 + 1) * b (1 * 4 + j) +
        a (i * 4 + 2) * b (2 * 4 + j) + a (i * 4 + 3) * b (3 * 4 + j) := rfl

/-- Claim C6: `multiplyMatrix` satisfies both identity laws on every entry
of a 4x4 row-major matrix (exactly over ℚ, the real-arithmetic reading of
the float code). -/
theorem multiply_identity (A : ℕ → ℚ) (p : ℕ) (hp : p < 16) :
    multiplyMatrix A identityMat p = A p ∧ multiplyMatrix identityMat A p = A p := by
  unfold multiplyMatrix identityMat createTranslationMatrix
  interval_cases p <;> rw [dotRow_eq, dotRow_eq] <;> norm_num

/-- Witness for C6 at the matrix with entry value equal to its index, read
at entry 7. -/
theorem multiply_identity_witness :
    (7 : ℕ) < 16 ∧
    (multiplyMatrix (fun n => (n : ℚ)) identityMat 7 = ((7 : ℕ) : ℚ) ∧
      multiplyMatrix identityMat (fun n => (n : ℚ)) 7 = ((7 : ℕ) : ℚ)) :=
  ⟨by decide, multiply_identity (fun n => (n : ℚ)) 7 (by decide)⟩

/-- The write-back loop of `multiplyMatrix`: `result[i] = temp[i]` for
`i = 0 .. 15`, on a heap addressed from the base pointer `rr`. -/
def writeBack (heap : ℕ → ℚ) (rr : ℕ) (temp : ℕ → ℚ) : ℕ → ℚ :=
  (List.range 16).foldl (fun h p => Function.update h (rr + p) (temp p)) heap

/-- `multiplyMatrix(result, a, b)` operating on one heap holding the three
arrays at base pointers `rr`, `ra`, `rb` (which may alias): the whole `temp`
array is computed from the heap before any write to `result` happens. -/
def multiplyMatrixAt (heap : ℕ → ℚ) (rr ra rb : ℕ) : ℕ → ℚ :=
  writeBack heap rr
    (multiplyMatrix (fun q => heap (ra + q)) (fun q => heap (rb + q)))

theorem foldl_writeRange_read (heap : ℕ → ℚ) (rr : ℕ) (temp : ℕ → ℚ)
    (n : ℕ) {p : ℕ} (hp : p < n) :
    ((List.range n).foldl (fun h q => Function.update h (rr + q) (temp q)) heap)
        (rr + p) = temp p := by
  induction n with
  | zero => omega
  | succ m ih =>
    rw [List.range_succ, List.foldl_append, List.foldl_cons, List.foldl_nil]
    rcases Nat.lt_succ_iff_lt_or_eq.mp hp with h | h
    · rw [Function.update_apply, if_neg (by omega : rr + p ≠ rr + m)]
      exact ih h
    · subst h
      rw [Function.update_apply, if_pos rfl]

/-- Claim C7: because `multiplyMatrix` accumulates into `temp` before
overwriting the destination, a call whose destination aliases the first or
the second operand (and in fact any destination) stores the standard
row-major product of the operands' original contents. -/
theorem multiply_alias_safe (heap : ℕ → ℚ) (ra rb : ℕ) (p : ℕ) (hp : p < 16) :
    multiplyMatrixAt heap ra ra rb (ra + p) =
      multiplyMatrix (fun q => heap (ra + q)) (fun q => heap (rb + q)) p ∧
    multiplyMatrixAt heap rb ra rb (rb + p) =
      multiplyMatrix (fun q => heap (ra + q)) (fun q => heap (rb + q)) p ∧
    (∀ rr, multiplyMatrixAt heap rr ra rb (rr + p) =
      multiplyMatrix (fun q => heap (ra + q)) (fun q => heap (rb + q)) p) := by
  refine ⟨?_, ?_, fun rr => ?_⟩ <;>
    exact foldl_writeRange_read _ _ _ 16 hp

/-- Witness for C7 on the heap whose cell value equals its address, with the
destination fully aliasing the first operand. -/
theorem multiply_alias_safe_witness :
    (0 : ℕ) < 16 ∧
    multiplyMatrixAt (fun n => (n : ℚ)) 0 0 16 (0 + 0) =
      multiplyMatrix (fun q => ((0 + q : ℕ) : ℚ)) (fun q => ((16 + q : ℕ) : ℚ)) 0 :=
  ⟨by decide, (multiply_alias_safe (fun n => (n : ℚ)) 0 16 0 (by decide)).1⟩

/-- The GL object space: a fresh-handle counter and the lists of live shader
and program objects. A created object receives the (nonzero) handle
`nextId + 1`; deletion removes one occurrence of the handle. -/
structure GLState where
  nextId : ℕ
  liveShaders : List ℕ
  livePrograms : List ℕ

/-- `glCreateShader`: allocate a fresh live shader object. -/
def glCreateShader (st : GLState) : ℕ × GLState :=
  (st.nextId + 1,
    { st with nextId := st.nextId + 1, liveShaders := (st.nextId + 1) :: st.liveShaders })

/-- `glDeleteShader`: release a shader object. -/
def glDeleteShader (st : GLState) (h : ℕ) : GLState :=
  { st with liveShaders := st.liveShaders.erase h }

/-- `glCreateProgram`: allocate a fresh live program object. -/
def glCreateProgram (st : GLState) : ℕ × GLState :=
  (st.nextId + 1,
    { st with nextId := st.nextId + 1, livePrograms := (st.nextId + 1) :: st.livePrograms })

/-- `glDeleteProgram`: release a program object. -/
def glDeleteProgram (st : GLState) (h : ℕ) : GLState :=
  { st with livePrograms := st.livePrograms.erase h }

/-- `compileShader`: create a shader object; on creation failure return 0;
on compile failure (the oracle `ok` is false) delete the object and
return 0. -/
def compileShader (ok : Bool) (st : GLState) : ℕ × GLState :=
  let r := glCreateShader st
  if r.1 = 0 then (0, r.2)
  else if ok then (r.1, r.2)
  else (0, glDeleteShader r.2 r.1)

/-- `createProgram`: compile the vertex stage (abort on failure), compile
the fragment stage (on failure delete the vertex stage and abort), create
and link the program (on link failure delete the program and both stages
and abort); on success delete both stages and return the program. -/
def createProgram (vOk fOk lOk : Bool) (st : GLState) : ℕ × GLState :=
  let rv := compileShader vOk st
  if rv.1 = 0 then (0, rv.2)
  else
    let rf := compileShader fOk rv.2
    if rf.1 = 0 then (0, glDeleteShader rf.2 rv.1)
    else
      let rp := glCreateProgram rf.2
      if rp.1 = 0 then
        (0, glDeleteShader (glDeleteShader rp.2 rv.1) rf.1)
      else if lOk then
        (rp.1, glDeleteShader (glDeleteShader rp.2 rv.1) rf.1)
      else
        (0, glDeleteShader (glDeleteShader (glDeleteProgram rp.2 rp.1) rv.1) rf.1)

/-- `initGL` up to the point the failure claim concerns: store the created
program in `g_shaderProgram` and report failure when it is 0 (the mesh
upload only happens on the success path). -/
def initGL (vOk fOk lOk : Bool) (st : GLState) : Bool × ℕ × GLState :=
  let r := createProgram vOk fOk lOk st
  if r.1 = 0 then (false, r.1, r.2) else (true, r.1, r.2)

/-- Claim C8: from a fresh GL context, any compile or link failure makes
`createProgram` return the absent handle 0 with no shader and no program
object left alive, and `initGL` then reports failure with the stored
program handle 0. -/
theorem create_program_failure_cleanup (vOk fOk lOk : Bool) (st : GLState)
    (hsh : st.liveShaders = []) (hpr : st.livePrograms = [])
    (hfail : ¬(vOk = true ∧ fOk = true ∧ lOk = true)) :
    (createProgram vOk fOk lOk st).1 = 0 ∧
    ((createProgram vOk fOk lOk st).2).liveShaders = [] ∧
    ((createProgram vOk fOk lOk st).2).livePrograms = [] ∧
    (initGL vOk fOk lOk st).1 = false ∧
    (initGL vOk fOk lOk st).2.1 = 0 := by
  have hne1 : st.nextId + 1 + 1 ≠ st.nextId + 1 := by omega
  cases vOk with
  | false =>
    simp [createProgram, initGL, compileShader, glCreateShader, glDeleteShader,
      glCreateProgram, glDeleteProgram, hsh, hpr]
  | true =>
    cases fOk with
    | false =>
      simp [createProgram, initGL, compileShader, glCreateShader, glDeleteShader,
        glCreateProgram, glDeleteProgram, hsh, hpr, List.erase_cons, hne1]
    | true =>
      cases lOk with
      | false =>
        simp [createProgram, initGL, compileShader, glCreateShader, glDeleteShader,
          glCreateProgram, glDeleteProgram, hsh, hpr, List.erase_cons, hne1]
      | true => exact absurd ⟨rfl, rfl, rfl⟩ hfail

/-- Witness for C8: a fresh context whose fragment stage fails to compile. -/
theorem create_program_failure_cleanup_witness :
    (((⟨0, [], []⟩ : GLState).liveShaders = []) ∧
      ((⟨0, [], []⟩ : GLState).livePrograms = []) ∧
      ¬(true = true ∧ false = true ∧ true = true)) ∧
    ((createProgram true false true ⟨0, [], []⟩).1 = 0 ∧
      ((createProgram true false true ⟨0, [], []⟩).2).liveShaders = [] ∧
      ((createProgram true false true ⟨0, [], []⟩).2).livePrograms = [] ∧
      (initGL true false true ⟨0, [], []⟩).1 = false ∧
      (initGL true false true ⟨0, [], []⟩).2.1 = 0) :=
  ⟨⟨rfl, rfl, by decide⟩,
    create_program_failure_cleanup true false true ⟨0, [], []⟩ rfl rfl (by decide)⟩

end GLRenderer
